import Mathlib

/-! Verification of the syfala audio-transport pipeline.

A shallow embedding, in Lean 4, of the parts of the syfala repository that the
checked properties talk about:

* `src/syfala_proto/src/format.rs` — the `SampleType` enumeration,
* `src/syfala_utils/src/queue.rs` — `PeriodicCounter`,
* `src/syfala_utils/src/byte_producer.rs` — the sample-to-byte framer,
* `src/syfala_utils/src/byte_consumer.rs` — `AudioPacketSamplePadder`,
* `src/syfala_jack/src/lib.rs` — `DuplexProcessHandler::process` frame indexing,
* `src/syfala_net/src/network.rs` — `recv_audio_packet`,
* `src/syfala_jack/src/server.rs` — the audio network thread receive step,
* `src/syfala_network/src/client/udp.rs` and `server/udp.rs` — `send`,
* `src/syfala_network/src/udp/client/generic/mod.rs` — the generic client
  registry, deadline queue and per-server state machine.

Machine integers are modelled as `Nat` with explicit bounds where the source
uses `strict_add` / `strict_sub` / `strict_mul` (which panic on overflow or
underflow, in release builds too); a panic is modelled as `none` (or an error
value).  Fallible paths return `Option` / `Except`.
-/

namespace Syfala

/-- The number of values of `u64` (and of `usize` on the 64-bit targets the
crates build for); the Rust strict arithmetic operations panic when a result does not
stay below this bound. -/
def u64Size : Nat := 2 ^ 64

/-- Rust `usize::MAX`, used by `AudioPacketSamplePadder::feed_bytes` as the skip
count for reordered packets. -/
def usizeMax : Nat := u64Size - 1

/-! Section: Sample formats — `src/syfala_proto/src/format.rs` -/

/-- Rust `SampleType` from `src/syfala_proto/src/format.rs` (lines 12-25): the
twelve supported sample formats. -/
inductive SampleType
  | U8 | U16 | U24 | U32 | U64
  | I8 | I16 | I24 | I32 | I64
  | IEEF32 | IEEF64
deriving DecidableEq, Repr

namespace SampleType

/-- Rust `SampleType::is_signed` (format.rs lines 30-33):
`matches!(self, I8 | I16 | I24 | I32 | IEEF32 | IEEF64)`. -/
def is_signed : SampleType → Bool
  | I8 | I16 | I24 | I32 | IEEF32 | IEEF64 => true
  | _ => false

/-- Rust `SampleType::is_float` (format.rs lines 37-40):
`matches!(self, IEEF32 | IEEF64)`. -/
def is_float : SampleType → Bool
  | IEEF32 | IEEF64 => true
  | _ => false

/-- Rust `SampleType::sample_size` (format.rs lines 44-55), in bytes (the source
wraps the result in `NonZeroU8`). -/
def sample_size : SampleType → Nat
  | U8 | I8 => 1
  | U16 | I16 => 2
  | U24 | I24 => 3
  | U32 | I32 | IEEF32 => 4
  | U64 | I64 | IEEF64 => 8

end SampleType

/-! Section: Periodic counter — `src/syfala_utils/src/queue.rs` -/

/-- Rust `PeriodicCounter` from `src/syfala_utils/src/queue.rs` (lines 14-17).
The source stores `period : NonZeroUsize` and maintains `current < period`. -/
structure PeriodicCounter where
  period : Nat
  current : Nat
deriving DecidableEq, Repr

/-- Rust `PeriodicCounter::advance` (queue.rs lines 36-43):

```
let next_chunk_idx_non_wrapped = self.current.strict_add(n);
self.current = next_chunk_idx_non_wrapped % p;
let boundaries = next_chunk_idx_non_wrapped / p;
boundaries
```

The `strict_add` panic (overflow past `usize::MAX`) is modelled as `none`;
otherwise the returned value is the boundary count paired with the updated
counter. -/
def PeriodicCounter.advance (c : PeriodicCounter) (n : Nat) : Option (Nat × PeriodicCounter) :=
  if c.current + n < u64Size then
    let next_chunk_idx_non_wrapped := c.current + n
    some (next_chunk_idx_non_wrapped / c.period,
          { c with current := next_chunk_idx_non_wrapped % c.period })
  else none

/-! Section: Sample-to-byte framer (producer) — `src/syfala_utils/src/byte_producer.rs`

A sample of a type `T : SampleToBytes` is represented by the list of the
`T::SIZE` little-endian bytes that `T::to_bytes` writes: the `SampleToBytes` /
`SampleFromBytes` trait definitions themselves are not under `src/` (only
their callers are), and the spec fixes their contract — "to_bytes(sample,
buf): write little-endian representation into buf[0..size]; from_bytes(buf) →
sample: inverse; round-trip for all defined types" — so the byte list
determines the sample and vice versa. -/

/-- One call to `SampleByteStreamIter::next` (byte_producer.rs lines 66-76).
State is `(current_byte_idx, current_sample_bytes)`; `samples` is what remains
of the underlying sample iterator.

* outer `none`: a panic (`strict_add` overflow of `current_byte_idx`, or the
  scratch index out of bounds);
* `some none`: the iterator is exhausted (`self.iter.next()` returned `None`
  at a sample boundary);
* `some (some (b, st, rest))`: the emitted byte, the new state, and the
  remaining samples. -/
def sampleByteStreamNext (size : Nat) (st : Nat × List Nat) (samples : List (List Nat)) :
    Option (Option (Nat × (Nat × List Nat) × List (List Nat))) :=
  let current_spl_byte_idx := st.1 % size
  -- if the sample boundary is reached, pull the next sample and
  -- `to_bytes` it into the scratch buffer
  let pulled : Option (List Nat × List (List Nat)) :=
    if current_spl_byte_idx = 0 then
      match samples with
      | [] => none
      | s :: rest => some (s, rest)
    else some (st.2, samples)
  match pulled with
  | none => some none
  | some (scratch, rest) =>
    if st.1 + 1 < u64Size then
      if h : current_spl_byte_idx < scratch.length then
        some (some (scratch.get ⟨current_spl_byte_idx, h⟩, (st.1 + 1, scratch), rest))
      else none
    else none

/-- Drains a `SampleByteStreamIter` (as `SampleByteStream::feed_samples`
followed by full consumption of the returned iterator does), collecting every
emitted byte and the final `(current_byte_idx, current_sample_bytes)` state.

`fuel` only bounds the recursion; `(samples.length + 1) * size` steps always
suffice, and all uses below supply at least that, so a `none` from exhausted
fuel never occurs on the inputs considered. -/
def sampleByteStreamDrain (size : Nat) :
    Nat → (Nat × List Nat) → List (List Nat) → Option (List Nat × Nat × List Nat)
  | 0, _, _ => none
  | fuel + 1, st, samples =>
    match sampleByteStreamNext size st samples with
    | none => none
    | some none => some ([], st.1, st.2)
    | some (some (b, st2, rest)) =>
      (sampleByteStreamDrain size fuel st2 rest).map fun r => (b :: r.1, r.2)

/-- Rust `SampleByteStream::new` (byte_producer.rs lines 102-108): byte index `0`,
scratch buffer of `size` zeroed bytes. -/
def sampleByteStreamNew (size : Nat) : Nat × List Nat :=
  (0, List.replicate size 0)

/-! Section: Byte-to-sample framer (consumer) — `src/syfala_utils/src/byte_consumer.rs` -/

/-- Rust `AudioPacketSamplePadder` state (byte_consumer.rs lines 57-66): the
expected global byte index and the scratch buffer for the partially
reconstructed sample (whose length is always `T::SIZE`). -/
structure AudioPacketSamplePadder where
  current_byte_idx : Nat
  current_sample_bytes : List Nat
deriving DecidableEq, Repr

/-- Rust `AudioPacketSamplePadder::new` (byte_consumer.rs lines 79-85). -/
def AudioPacketSamplePadder.new (size : Nat) : AudioPacketSamplePadder :=
  ⟨0, List.replicate size 0⟩

/-- One iteration of the `filter_map` closure inside
`AudioPacketSamplePadder::feed_bytes` (byte_consumer.rs lines 141-156):

```
let curr = usize::try_from(self.current_byte_idx % T::SIZE).unwrap();
self.current_sample_bytes[curr] = byte;
self.current_byte_idx = self.current_byte_idx.strict_add(1);
if self.current_byte_idx % T::SIZE != 0 { return None; }
let this_sample_bytes = &self.current_sample_bytes[curr.strict_sub(sample_size)..curr];
Some(T::from_bytes(this_sample_bytes))
```

The result is `none` on a panic (the `strict_add` overflow, or — decisive
below — the `curr.strict_sub(sample_size)` underflow when a sample
completes); otherwise `some (emitted?, new state)`, where an emitted sample is
represented by the byte slice handed to `T::from_bytes`. -/
def padderStep (size : Nat) (p : AudioPacketSamplePadder) (byte : Nat) :
    Option (Option (List Nat) × AudioPacketSamplePadder) :=
  let curr := p.current_byte_idx % size
  let scratch := p.current_sample_bytes.set curr byte
  if p.current_byte_idx + 1 < u64Size then
    let p2 : AudioPacketSamplePadder := ⟨p.current_byte_idx + 1, scratch⟩
    if p2.current_byte_idx % size ≠ 0 then some (none, p2)
    else if size ≤ curr then
      some (some ((scratch.drop (curr - size)).take (curr - (curr - size))), p2)
    else none
  else none

/-- Runs the `filter_map` stage of `feed_bytes` over the (already skipped)
input bytes, collecting the reconstructed samples in order together with the
final padder state; `none` propagates a panic from `padderStep`. -/
def padderFeedData (size : Nat) :
    AudioPacketSamplePadder → List Nat → Option (List (List Nat) × AudioPacketSamplePadder)
  | p, [] => some ([], p)
  | p, b :: rest =>
    match padderStep size p b with
    | none => none
    | some (none, p2) => padderFeedData size p2 rest
    | some (some s, p2) =>
      (padderFeedData size p2 rest).map fun r => (s :: r.1, r.2)

/-- The `Ordering::Greater` arm of the `match` in `feed_bytes`
(byte_consumer.rs lines 110-129): given the sample size, the expected index
`a = current_byte_idx` and the packet index `b = byte_idx > a`, returns
`(n_padding_spls, n_skipped_bytes, new current_byte_idx)`:

```
let prev_spl_idx = self.current_byte_idx / bps;
let next_spl_idx = byte_idx.strict_add(bps.get().strict_sub(1)) / bps;
let n_padding_samples = next_spl_idx.strict_sub(prev_spl_idx);
let next_spl_byte_idx = next_spl_idx.strict_mul(bps.get());
let n_skipped_bytes = next_spl_byte_idx.strict_sub(self.current_byte_idx);
self.current_byte_idx = next_spl_byte_idx;
```

`none` models a panic of one of the strict operations. -/
def padderGapCounts (size a b : Nat) : Option (Nat × Nat × Nat) :=
  if b + (size - 1) < u64Size then
    let prev_spl_idx := a / size
    let next_spl_idx := (b + (size - 1)) / size
    if prev_spl_idx ≤ next_spl_idx then
      let n_padding_samples := next_spl_idx - prev_spl_idx
      if next_spl_idx * size < u64Size then
        let next_spl_byte_idx := next_spl_idx * size
        if a ≤ next_spl_byte_idx then
          some (n_padding_samples, next_spl_byte_idx - a, next_spl_byte_idx)
        else none
      else none
    else none
  else none

/-- Rust `AudioPacketSamplePadder::feed_bytes` (byte_consumer.rs lines 96-159),
with the returned iterator fully consumed.  `pad` is the (pure) value produced
by `pad_fn`, as a byte list.  Returns the emitted samples — padding first,
then data samples — and the final state; `none` models a panic (the
`assert_eq!` on the scratch length, or any strict-arithmetic panic). -/
def feed_bytes (size : Nat) (p : AudioPacketSamplePadder) (byte_idx : Nat)
    (bytes : List Nat) (pad : List Nat) :
    Option (List (List Nat) × AudioPacketSamplePadder) :=
  if size ≠ p.current_sample_bytes.length then none
  else if byte_idx < p.current_byte_idx then
    -- reordered packet, skip all bytes (`n_skipped_bytes = usize::MAX`)
    padderFeedData size p (bytes.drop usizeMax)
  else if byte_idx = p.current_byte_idx then
    -- correct packet index, no padding and no skipping
    padderFeedData size p bytes
  else
    match padderGapCounts size p.current_byte_idx byte_idx with
    | none => none
    | some (n_padding_spls, n_skipped_bytes, next_spl_byte_idx) =>
      let p2 : AudioPacketSamplePadder := { p with current_byte_idx := next_spl_byte_idx }
      (padderFeedData size p2 (bytes.drop n_skipped_bytes)).map
        fun r => (List.replicate n_padding_spls pad ++ r.1, r.2)

/-- The little-endian byte representation of the `f32` silence sample `0.0`
(the `SILENCE` value the `ByteStreamFramer` instance passes as `pad_fn`). -/
def silenceF32 : List Nat := [0, 0, 0, 0]

/-! Section: JACK process handler frame indexing — `src/syfala_jack/src/lib.rs` -/

/-- The frame-index computation of `DuplexProcessHandler::process`
(lib.rs lines 109-112):

```
let this_cycle_frame_idx = u64::from(scope.last_frame_time());
let &first_cycle_frame_idx = self.start_frame_idx.get_or_init(|| this_cycle_frame_idx);
let frame_idx = this_cycle_frame_idx.strict_sub(first_cycle_frame_idx);
```

`cell` is the `OnceCell` content before the call.  Returns
`some (frame_idx, start_frame_idx)` on success; `none` models the
`strict_sub` panic when the engine counter went backwards past the captured
start index. -/
def processFrameIdx (cell : Option Nat) (this_cycle_frame_idx : Nat) : Option (Nat × Nat) :=
  let first_cycle_frame_idx := cell.getD this_cycle_frame_idx
  if this_cycle_frame_idx < first_cycle_frame_idx then none
  else some (this_cycle_frame_idx - first_cycle_frame_idx, first_cycle_frame_idx)

/-! Section: Raw audio receive path — `src/syfala_net/src/network.rs` and
`src/syfala_jack/src/server.rs` -/

/-- I/O error kinds relevant to the receive paths. -/
inductive IOErrorKind
  | invalidData | fileTooLarge | other
deriving DecidableEq, Repr

/-- Rust `MAX_DATAGRAM_SIZE` (network.rs line 174). -/
def MAX_DATAGRAM_SIZE : Nat := 1452

/-- Little-endian value of a byte list (first byte least significant), as
`u64::from_le_bytes` / `u32::from_le_bytes` compute it. -/
def leValue (bs : List Nat) : Nat :=
  bs.foldr (fun b acc => acc * 256 + b) 0

/-- The `iter::from_fn` sample loop of `recv_audio_packet` (network.rs lines
318-326): repeatedly fills a 4-byte buffer from the byte iterator and decodes
it as a little-endian `f32` (represented here by its `u32` bit pattern, which
`Sample::from_bits` maps bijectively to the float); a partial final group ends
the iterator without emitting. -/
def sampleChunks : List Nat → List Nat
  | b0 :: b1 :: b2 :: b3 :: rest => leValue [b0, b1, b2, b3] :: sampleChunks rest
  | _ => []

/-- Rust `recv_audio_packet` (network.rs lines 296-329) applied to one received
datagram `payload` (so `bytes_read = payload.length ≤ MAX_DATAGRAM_SIZE`).
The local buffer is zero-initialized (`let mut buf = [0u8; MAX_DATAGRAM_SIZE]`)
before `recv_from` overwrites its first `bytes_read` bytes.  Returns the
timestamp and the fully drained sample iterator

```
let mut sample_byte_iter = buf.into_iter().skip(size_of::<u64>()).take(bytes_read);
```

or `Except.error invalidData` when the payload is too short for the 8-byte
timestamp (`split_first_chunk` fails). -/
def recv_audio_packet (payload : List Nat) : Except IOErrorKind (Nat × List Nat) :=
  let buf := payload ++ List.replicate (MAX_DATAGRAM_SIZE - payload.length) 0
  if payload.length < 8 then .error .invalidData
  else
    let timestamp := leValue (payload.take 8)
    let sample_byte_iter := (buf.drop 8).take payload.length
    .ok (timestamp, sampleChunks sample_byte_iter)

/-- Outcome of one iteration of the jack server audio network thread loop
(`audio_network_thread_run`, server.rs lines 149-167) for a received datagram:
the body is

```
let (source, timestamp, samples) = network::recv_audio_packet(&audio_socket)?;
```

so an `Err` from `recv_audio_packet` is propagated by `?` and the loop
(and with it the thread) terminates; otherwise the samples are forwarded to
the matching ring buffer and the loop continues. -/
inductive LoopOutcome
  | continued (timestamp : Nat) (samples : List Nat)
  | terminated (e : IOErrorKind)
deriving DecidableEq, Repr

/-- One receive step of `audio_network_thread_run` (server.rs lines 149-167),
restricted to the datagram handling (the `event_rx` drain and the control
thread check do not touch the receive/decode path). -/
def audioNetworkThreadStep (payload : List Nat) : LoopOutcome :=
  match recv_audio_packet payload with
  | .error e => .terminated e
  | .ok (timestamp, samples) => .continued timestamp samples

/-! Section: UDP message send — `src/syfala_network/src/client/udp.rs` (lines
40-59) and `src/syfala_network/src/server/udp.rs` (lines 51-70) -/

/-- Rust `Client::send` and `Server::send` (their bodies are identical):

```
let left = postcard::to_slice(&...Flat::from(message), buf)?.len();
let ser_len = buf.len().strict_sub(left);
let res = self.sock.send_to(&mut buf[..ser_len], dest_addr);
res.and_then(|n| (n == ser_len).then_some(()).ok_or(FileTooLarge.into()))
```

The codec is the black box the spec describes: `encoded` is the byte sequence
`postcard::to_slice` produces for the flattened message (it returns the used
prefix of the buffer, so `left = encoded.length`), and `stale` is the rest of
the caller buffer, untouched by the encoder (zeroes at every call site,
e.g. `let mut encode_buf = [0; 2000]`).  `sock_accepted` is the byte count
`send_to` reports.  Returns the datagram actually handed to the socket and the
result of the call. -/
def udpSend (encoded stale : List Nat) (sock_accepted : Nat) :
    List Nat × Except IOErrorKind Unit :=
  let buf := encoded ++ stale
  let left := encoded.length
  let ser_len := buf.length - left
  let sent := buf.take ser_len
  (sent, if sock_accepted = ser_len then .ok () else .error .fileTooLarge)

/-! Section: Generic UDP client — `src/syfala_network/src/udp/client/generic/mod.rs`

The `syfala_proto::message` revision this module compiles against (with
`Discovery`, `ConnectionResult`, `Disconnect`, `Heartbeat` and the `START_IO`
constant) is not under `src/`; its message vocabulary is modelled from the
wire message model of the spec (section 4.F), which lists exactly those variants.
Addresses and instants are `Nat`.  The application callbacks
(`ClientContext`, `state.rs`) only observe transitions; their decisions
(accepting a connection, requesting start/stop) are carried by the events. -/

/-- Start/stop direction of an I/O state change (`message::IOState`). -/
inductive IODir | start | stop
deriving DecidableEq, Repr

/-- Rust `message::Error`: recoverable failure or permanent refusal. -/
inductive ProtoError | failure | refusal
deriving DecidableEq, Repr

/-- Server→client control message (spec §4.F):
`IOStateChangeResult(Start|Stop, Ok|Err)` — `none` is `Ok(())` — or
`Heartbeat`. -/
inductive ServerControl
  | ioStateChangeResult (dir : IODir) (result : Option ProtoError)
  | heartbeat
deriving DecidableEq, Repr

/-- Rust `server::Connected`: a control message or an audio payload (header byte
index and raw bytes; the stream index is irrelevant to the registry). -/
inductive ServerConnected
  | control (c : ServerControl)
  | audio (byte_idx : Nat) (bytes : List Nat)
deriving DecidableEq, Repr

/-- Rust `message::Server`: the decoded messages the generic client dispatches on
(`on_decoded_message`, mod.rs lines 251-269). -/
inductive ServerMsg
  | connect
  | connected (m : ServerConnected)
  | disconnect
deriving DecidableEq, Repr

/-- Client→server messages the generic client sends. -/
inductive ClientMsg
  | connectionResult (ok : Bool)
  | requestIOStateChange (dir : IODir)
deriving DecidableEq, Repr

/-- Modelled from the spec: the `Client::START_IO` constant of the missing
`syfala_proto::message` revision — the client message
`Connected(Control(RequestIOStateChange(Start)))` (the wire flattening in
`syfala_network/src/lib.rs` names this variant `StartIO`). -/
def ClientMsg.START_IO : ClientMsg := .requestIOStateChange .start

/-- The four per-server I/O states (`ServerIOState`, mod.rs lines 48-53; the
typestate payloads carry only application callbacks). -/
inductive PeerIOState
  | inactive | pendingStart | active | pendingStop
deriving DecidableEq, Repr

/-- Rust `ServerIOState::on_msg` (mod.rs lines 64-169): dispatches a
`Server::Connected` message against the current state, returning the next
state and the messages sent back (the `Failure` arms re-send the pending
request).  Arms that do not match the current state leave it unchanged. -/
def peerOnMsg (st : PeerIOState) (m : ServerConnected) : PeerIOState × List ClientMsg :=
  match m with
  | .control (.ioStateChangeResult .start none) =>
    match st with
    | .pendingStart => (.active, [])
    | s => (s, [])
  | .control (.ioStateChangeResult .start (some .failure)) =>
    match st with
    | .pendingStart => (.pendingStart, [.requestIOStateChange .start])
    | s => (s, [])
  | .control (.ioStateChangeResult .start (some .refusal)) =>
    match st with
    | .pendingStart => (.inactive, [])
    | s => (s, [])
  | .control (.ioStateChangeResult .stop none) =>
    match st with
    | .pendingStop => (.inactive, [])
    | s => (s, [])
  | .control (.ioStateChangeResult .stop (some .failure)) =>
    match st with
    | .pendingStop => (.pendingStop, [.requestIOStateChange .stop])
    | s => (s, [])
  | .control (.ioStateChangeResult .stop (some .refusal)) =>
    match st with
    | .pendingStop => (.active, [])
    | s => (s, [])
  | .control .heartbeat => (st, [])
  | .audio _ _ => (st, [])

/-- Association-list maps keyed by address, standing in for the
`FxHashMap` (`servers`) and the `priority_queue::PriorityQueue`
(`deadlines`): the list of keys. -/
def keysOf (l : List (Nat × β)) : List Nat := l.map Prod.fst

/-- Map removal (`HashMap::remove` / `PriorityQueue::remove`): drops the
entry with the given key. -/
def removeKey (l : List (Nat × β)) (k : Nat) : List (Nat × β) :=
  l.filter fun p => decide (p.1 ≠ k)

/-- Map insertion (`HashMap::insert` / `PriorityQueue::push`): _replaces_ the
corresponding entry if it already exists. -/
def insertReplace (l : List (Nat × β)) (k : Nat) (v : β) : List (Nat × β) :=
  (k, v) :: removeKey l k

/-- Map lookup (`HashMap::get_mut`). -/
def getVal (l : List (Nat × β)) (k : Nat) : Option β :=
  (l.find? fun p => decide (p.1 = k)).map Prod.snd

/-- Rust `CONN_TIMEOUT` (mod.rs line 30), in milliseconds. -/
def CONN_TIMEOUT : Nat := 600

/-- Rust `GenericClient` (mod.rs lines 179-190): the deadline priority queue and
the per-server state map (`retry_deadline` and the callbacks do not affect
the properties below). -/
structure GenericClient where
  deadlines : List (Nat × Nat)
  servers : List (Nat × PeerIOState)
deriving DecidableEq, Repr

/-- Rust `GenericClient::new` (mod.rs lines 197-204): no servers, empty deadline
queue. -/
def GenericClient.init : GenericClient := ⟨[], []⟩

/-- The deadline refresh at the end of `on_decoded_message` (mod.rs lines
271-278): if the sender is (still) a connected server, push — replacing any
existing entry — its new deadline `timestamp + CONN_TIMEOUT`. -/
def refreshDeadline (addr timestamp : Nat) (g : GenericClient) : GenericClient :=
  if addr ∈ keysOf g.servers then
    { g with deadlines := insertReplace g.deadlines addr (timestamp + CONN_TIMEOUT) }
  else g

/-- Rust `GenericClient::on_decoded_message` (mod.rs lines 240-281) together with
`on_server_connect_request` (lines 211-235).  `accept` is the `callbacks.connect` decision of the application for an inbound `Connect`.  Returns the updated
client and the `(address, message)` pairs sent, or `none` when the
`self.deadlines.remove(&addr).unwrap()` in the `Disconnect` arm panics.
Socket sends are modelled as succeeding (an I/O error would abort the whole
receive loop, not yield a next state). -/
def onDecodedMessage (g : GenericClient) (accept : Bool) (addr timestamp : Nat)
    (msg : ServerMsg) : Option (GenericClient × List (Nat × ClientMsg)) :=
  match msg with
  | .connect =>
    let r : GenericClient × List (Nat × ClientMsg) :=
      if addr ∈ keysOf g.servers then (g, [])
      else if accept then
        ({ g with servers := insertReplace g.servers addr .inactive },
         [(addr, .connectionResult true)])
      else (g, [(addr, .connectionResult false)])
    some (refreshDeadline addr timestamp r.1, r.2)
  | .connected m =>
    let r : GenericClient × List (Nat × ClientMsg) :=
      match getVal g.servers addr with
      | some st =>
        let s := peerOnMsg st m
        ({ g with servers := insertReplace g.servers addr s.1 },
         s.2.map fun c => (addr, c))
      | none => (g, [])
    some (refreshDeadline addr timestamp r.1, r.2)
  | .disconnect =>
    if addr ∈ keysOf g.servers then
      if addr ∈ keysOf g.deadlines then
        some (refreshDeadline addr timestamp
                ⟨removeKey g.deadlines addr, removeKey g.servers addr⟩, [])
      else none
    else some (refreshDeadline addr timestamp g, [])

/-- The expiry loop of `GenericClient::on_timeout` (mod.rs lines 310-316):

```
while let Some((addr, _)) = self.deadlines.pop_if(|_, Reverse(deadline)| *deadline <= now) {
    self.servers.remove(&addr).unwrap();
}
```

`pop_if` pops the entry with the earliest deadline while it satisfies
`deadline ≤ now`, so the loop removes exactly the entries with
`deadline ≤ now` (the pop order does not affect the result); each popped
address is removed from `servers`, panicking (`none`) if it is absent. -/
def onTimeoutExpire (now : Nat) (g : GenericClient) : Option GenericClient :=
  let dead := g.deadlines.filter fun p => decide (p.2 ≤ now)
  if dead.all fun p => decide (p.1 ∈ keysOf g.servers) then
    some ⟨g.deadlines.filter fun p => decide (now < p.2),
          g.servers.filter fun p => decide (p.1 ∉ keysOf dead)⟩
  else none

/-- The request-polling body of `on_timeout` (mod.rs lines 321-345) for one
server: an `Inactive` server whose `poll_start_io` returns yes becomes
`PendingStart` and is sent `Client::START_IO`; an `Active` server whose
`poll_stop_io` returns yes becomes `PendingStop` and is sent — as written at
mod.rs line 337 — `Client::START_IO`; every other state is kept with no
send.  `pollStart` / `pollStop` list the addresses whose application
callbacks request a transition. -/
def pollPeer (pollStart pollStop : List Nat) (addr : Nat) (st : PeerIOState) :
    PeerIOState × List ClientMsg :=
  match st with
  | .inactive =>
    if addr ∈ pollStart then (.pendingStart, [ ClientMsg.START_IO])
    else (.inactive, [])
  | .active =>
    if addr ∈ pollStop then (.pendingStop, [ ClientMsg.START_IO])
    else (.active, [])
  | s => (s, [])

/-- Rust `GenericClient::on_timeout` (mod.rs lines 304-358): expire overdue
servers, then poll every remaining server for start/stop requests (the final
`set_recv_timeout` only configures the socket).  Returns the updated client
and the `(address, message)` pairs sent, or `none` on a panic in the expiry
loop. -/
def onTimeout (now : Nat) (pollStart pollStop : List Nat) (g : GenericClient) :
    Option (GenericClient × List (Nat × ClientMsg)) :=
  match onTimeoutExpire now g with
  | none => none
  | some g2 =>
    let polled := g2.servers.map fun p => (p.1, pollPeer pollStart pollStop p.1 p.2)
    some ({ g2 with servers := polled.map fun p => (p.1, p.2.1) },
          polled.flatMap fun p => p.2.2.map fun c => (p.1, c))

/-- One reason the receive loop (`Client::start`, udp/client/mod.rs lines
152-167) wakes the generic client: a datagram that decoded to a server
message (with the connect decision of the application attached), a datagram that
did not decode (`on_message` with `None`, mod.rs lines 284-297, which only
calls `callbacks.unknown_message`), or a receive timeout (with the addresses
whose application callbacks currently request starting/stopping I/O). -/
inductive ClientEvent
  | recv (addr timestamp : Nat) (accept : Bool) (msg : ServerMsg)
  | undecodable (addr : Nat)
  | timeout (now : Nat) (pollStart pollStop : List Nat)
deriving DecidableEq, Repr

/-- Dispatches one event against the generic client, as the receive loop
does. -/
def stepEvent (g : GenericClient) : ClientEvent → Option (GenericClient × List (Nat × ClientMsg))
  | .recv addr timestamp accept msg => onDecodedMessage g accept addr timestamp msg
  | .undecodable _ => some (g, [])
  | .timeout now pollStart pollStop => onTimeout now pollStart pollStop g

/-- Runs a sequence of events from a given client state, `none` as soon as a
step panics. -/
def runFrom (g : GenericClient) : List ClientEvent → Option GenericClient
  | [] => some g
  | e :: rest =>
    match stepEvent g e with
    | none => none
    | some r => runFrom r.1 rest

/-- Runs a sequence of events from the freshly created client. -/
def runEvents (es : List ClientEvent) : Option GenericClient :=
  runFrom GenericClient.init es

/-! Section: Theorems: sample formats and the periodic counter -/

/-- C6. For each of the twelve sample types, `sample_size` returns the
enumerated width and `is_float` holds exactly for `IEEF32`/`IEEF64`, and
`is_signed` holds for `I8`, `I16`, `I24`, `I32` and fails for every unsigned
type — but, contrary to the claim, `is_signed` returns `false` for `I64`:
the `matches!` arm in format.rs line 32 omits `I64`. -/
theorem sampleType_is_signed_omits_I64 :
    SampleType.is_signed SampleType.I64 = false
    ∧ (SampleType.is_signed SampleType.I8 = true
        ∧ SampleType.is_signed SampleType.I16 = true
        ∧ SampleType.is_signed SampleType.I24 = true
        ∧ SampleType.is_signed SampleType.I32 = true)
    ∧ (SampleType.is_signed SampleType.U8 = false
        ∧ SampleType.is_signed SampleType.U16 = false
        ∧ SampleType.is_signed SampleType.U24 = false
        ∧ SampleType.is_signed SampleType.U32 = false
        ∧ SampleType.is_signed SampleType.U64 = false)
    ∧ (∀ t, SampleType.is_float t = true ↔ (t = SampleType.IEEF32 ∨ t = SampleType.IEEF64))
    ∧ (SampleType.sample_size SampleType.U8 = 1
        ∧ SampleType.sample_size SampleType.I8 = 1
        ∧ SampleType.sample_size SampleType.U16 = 2
        ∧ SampleType.sample_size SampleType.I16 = 2
        ∧ SampleType.sample_size SampleType.U24 = 3
        ∧ SampleType.sample_size SampleType.I24 = 3
        ∧ SampleType.sample_size SampleType.U32 = 4
        ∧ SampleType.sample_size SampleType.I32 = 4
        ∧ SampleType.sample_size SampleType.IEEF32 = 4
        ∧ SampleType.sample_size SampleType.U64 = 8
        ∧ SampleType.sample_size SampleType.I64 = 8
        ∧ SampleType.sample_size SampleType.IEEF64 = 8) := by
  refine ⟨rfl, ⟨rfl, rfl, rfl, rfl⟩, ⟨rfl, rfl, rfl, rfl, rfl⟩, ?_, ?_⟩
  · intro t; cases t <;> simp [SampleType.is_float]
  · exact ⟨rfl, rfl, rfl, rfl, rfl, rfl, rfl, rfl, rfl, rfl, rfl, rfl⟩

/-- C9. For every counter with `current < period` and every step count `n`
with no `usize` overflow, `advance n` returns exactly `(current + n) / period`
boundaries crossed, updates `current` to `(current + n) % period`, and the
invariant `current < period` is preserved. -/
theorem periodicCounter_advance_spec (c : PeriodicCounter) (n : Nat)
    (hinv : c.current < c.period) (hov : c.current + n < u64Size) :
    c.advance n = some ((c.current + n) / c.period,
                        { c with current := (c.current + n) % c.period })
    ∧ (c.current + n) % c.period < c.period := by
  have hp : 0 < c.period := Nat.lt_of_le_of_lt (Nat.zero_le _) hinv
  refine ⟨?_, Nat.mod_lt _ hp⟩
  simp [PeriodicCounter.advance, hov]

/-- Witness for C9: the counter `(period := 4, current := 1)` advanced by 10
crosses `⌊11/4⌋ = 2` boundaries and ends at `11 % 4 = 3 < 4`. -/
theorem periodicCounter_advance_spec_witness :
    (PeriodicCounter.mk 4 1).advance 10
      = some ((1 + 10) / 4, PeriodicCounter.mk 4 ((1 + 10) % 4))
    ∧ (1 + 10) % 4 < 4 :=
  periodicCounter_advance_spec (PeriodicCounter.mk 4 1) 10 (by decide)
    (by unfold u64Size; decide)

/-! Section: Theorems: the framer pair -/

/-- C1. The framer round-trip panics instead of reconstructing the input:
already for the one-sample sequence `S = [0.0f32]` (bytes `[0,0,0,0]`), the
producer framer emits the four bytes `[0,0,0,0]` at indices `0..4` as it
should, but feeding that single in-order gap-free packet to a fresh consumer
framer panics — on completing a sample the `filter_map` closure evaluates
`curr.strict_sub(sample_size)` with `curr = size - 1`, which underflows — so
no sample sequence with a completed sample round-trips. -/
theorem framer_roundtrip_panics :
    sampleByteStreamDrain 4 8 (sampleByteStreamNew 4) [[0, 0, 0, 0]]
      = some ([0, 0, 0, 0], 4, [0, 0, 0, 0])
    ∧ feed_bytes 4 (AudioPacketSamplePadder.new 4) 0 [0, 0, 0, 0] silenceF32 = none := by
  decide

/-- C3. On a gap (`byte_idx = 2` against expected index `0`, sample size
`4`), the consumer framer emits the right padding count
(`⌈2/4⌉ - ⌊0/4⌋ = 1`) and sets the expected index to the boundary `4`, but the
skip count is `next_boundary - expected_idx = 4` input bytes rather than the
claimed `next_boundary - byte_idx = 2`: the data byte `7`, which lies at
stream position `4` — exactly on the boundary — is dropped instead of entering
the scratch buffer, and the padder state ends at `⟨4, [0,0,0,0]⟩` instead of
`⟨5, [7,0,0,0]⟩`. -/
theorem feed_bytes_gap_skips_from_expected_index :
    padderGapCounts 4 0 2 = some (1, 4, 4)
    ∧ feed_bytes 4 (AudioPacketSamplePadder.new 4) 2 [9, 9, 7] silenceF32
        = some ([silenceF32], ⟨4, [0, 0, 0, 0]⟩)
    ∧ (2 + (4 - 1)) / 4 * 4 - 0 = 4
    ∧ (2 + (4 - 1)) / 4 * 4 - 2 = 2 := by
  decide

/-! Section: Theorems: process handler, audio receive, UDP send -/

/-- C7. The frame indexing of the process handler panics on a non-monotonic
engine counter instead of saturating or re-anchoring: with
`start_frame_idx = 100` captured, a later cycle at frame index `50` hits the
`strict_sub` underflow (first conjunct); the first-call capture and the
monotonic case behave normally (remaining conjuncts). -/
theorem process_panics_on_nonmonotonic_counter :
    processFrameIdx (some 100) 50 = none
    ∧ processFrameIdx none 100 = some (100 - 100, 100)
    ∧ processFrameIdx (some 100) 130 = some (130 - 100, 100) := by
  decide

/-- C10. For a received 16-byte audio datagram (8-byte timestamp `1`
followed by the two little-endian samples `1` and `2`), `recv_audio_packet`
yields **four** samples, the last two decoded from the zero bytes of the local
buffer beyond the received payload, because the iterator is
`skip(8).take(bytes_read)` with `bytes_read = 16` — not the
`⌊(16 - 8) / 4⌋ = 2` samples of the claim. -/
theorem recv_audio_packet_reads_past_payload :
    recv_audio_packet [1, 0, 0, 0, 0, 0, 0, 0, 1, 0, 0, 0, 2, 0, 0, 0]
      = .ok (1, [1, 2, 0, 0])
    ∧ (16 - 8) / 4 = 2 :=
  ⟨rfl, rfl⟩

/-- C5. `Client::send` / `Server::send` do not transmit the
encoded prefix: for a 1-byte encoding in a 10-byte (zeroed) buffer the
datagram handed to the socket is `buf[..buf.len() - 1]` — 9 bytes — and the
call succeeds exactly when the socket accepts 9 bytes, while a send that
accepts exactly the 1 encoded byte is reported as an error. -/
theorem udpSend_sends_wrong_slice :
    (udpSend [0] (List.replicate 9 0) 9).1 = [0, 0, 0, 0, 0, 0, 0, 0, 0]
    ∧ (udpSend [0] (List.replicate 9 0) 9).2 = .ok ()
    ∧ (udpSend [0] (List.replicate 9 0) 1).2 = .error .fileTooLarge :=
  ⟨rfl, rfl, rfl⟩

/-! Section: Theorems: the generic client -/

/-- C2. In the timeout handler, a peer in `Active` whose `poll_stop_io`
returns yes does transition to `PendingStop`, but the single message sent to
it is `Client::START_IO` — that is, `RequestIOStateChange(Start)`, not the
claimed `RequestIOStateChange(Stop)` (mod.rs line 337 reuses the constant
from the `Inactive` arm at line 327). -/
theorem onTimeout_active_poll_stop_sends_start :
    onTimeout 0 [] [7] ⟨[(7, 1000)], [(7, .active)]⟩
      = some (⟨[(7, 1000)], [(7, .pendingStop)]⟩,
              [(7, ClientMsg.requestIOStateChange .start)])
    ∧ ClientMsg.START_IO ≠ ClientMsg.requestIOStateChange .stop := by
  decide

/-- C4. An undecodable datagram in the typed client loop leaves the
registry untouched and the loop continues (second conjunct), but on the raw
audio path a datagram too short to decode (here 4 bytes) makes
`recv_audio_packet` return `Err(InvalidData)`, which
`audio_network_thread_run` propagates with `?`, terminating the receive
loop — contradicting the claim for that path. -/
theorem short_datagram_terminates_audio_loop :
    audioNetworkThreadStep [0, 0, 0, 0] = .terminated .invalidData
    ∧ stepEvent ⟨[(5, 600)], [(5, .inactive)]⟩ (.undecodable 3)
        = some (⟨[(5, 600)], [(5, .inactive)]⟩, []) := by
  decide

/-! Subsection: The registry / deadline-queue coupling invariant (C8) -/

theorem mem_keysOf {β : Type} {l : List (Nat × β)} {a : Nat} :
    a ∈ keysOf l ↔ ∃ v, (a, v) ∈ l := by
  constructor
  · intro h
    rcases List.mem_map.1 h with ⟨⟨k, v⟩, hm, hk⟩
    exact ⟨v, by simpa [← hk] using hm⟩
  · rintro ⟨v, hm⟩
    exact List.mem_map.2 ⟨(a, v), hm, rfl⟩

theorem mem_keysOf_removeKey {β : Type} {l : List (Nat × β)} {k a : Nat} :
    a ∈ keysOf (removeKey l k) ↔ a ∈ keysOf l ∧ a ≠ k := by
  simp only [mem_keysOf, removeKey, List.mem_filter, decide_eq_true_eq]
  constructor
  · rintro ⟨v, hm, hne⟩
    exact ⟨⟨v, hm⟩, hne⟩
  · rintro ⟨⟨v, hm⟩, hne⟩
    exact ⟨v, hm, hne⟩

theorem mem_keysOf_insertReplace {β : Type} {l : List (Nat × β)} {k a : Nat} {v : β} :
    a ∈ keysOf (insertReplace l k v) ↔ a = k ∨ a ∈ keysOf l := by
  show a ∈ keysOf ((k, v) :: removeKey l k) ↔ _
  simp only [keysOf, List.map_cons, List.mem_cons]
  rw [show (List.map Prod.fst (removeKey l k) : List Nat) = keysOf (removeKey l k) from rfl]
  rw [mem_keysOf_removeKey]
  by_cases hak : a = k <;> simp [hak, mem_keysOf]

theorem nodup_keysOf_filter {β : Type} {l : List (Nat × β)} {q : Nat × β → Bool}
    (h : (keysOf l).Nodup) : (keysOf (l.filter q)).Nodup :=
  List.Nodup.sublist (List.Sublist.map Prod.fst (List.filter_sublist l)) h

theorem nodup_keysOf_insertReplace {β : Type} {l : List (Nat × β)} {k : Nat} {v : β}
    (h : (keysOf l).Nodup) : (keysOf (insertReplace l k v)).Nodup := by
  show ((k, v).1 :: keysOf (removeKey l k)).Nodup
  refine List.nodup_cons.2 ⟨?_, nodup_keysOf_filter h⟩
  intro hk
  exact (mem_keysOf_removeKey.1 hk).2 rfl

theorem nodup_keysOf_entry_unique {β : Type} {l : List (Nat × β)}
    (h : (keysOf l).Nodup) {a : Nat} {v w : β}
    (hv : (a, v) ∈ l) (hw : (a, w) ∈ l) : v = w := by
  induction l with
  | nil => cases hv
  | cons p rest ih =>
    have hnd : p.1 ∉ keysOf rest ∧ (keysOf rest).Nodup := by
      simpa [keysOf, List.nodup_cons] using h
    rcases List.mem_cons.1 hv with hv1 | hv1 <;> rcases List.mem_cons.1 hw with hw1 | hw1
    · rw [← hv1] at hw1; exact (congrArg Prod.snd hw1.symm)
    · exfalso
      exact hnd.1 (by rw [← hv1]; exact mem_keysOf.2 ⟨w, hw1⟩)
    · exfalso
      exact hnd.1 (by rw [← hw1]; exact mem_keysOf.2 ⟨v, hv1⟩)
    · exact ih hnd.2 hv1 hw1

/-- Membership in the keys of a filter whose predicate only inspects the
key. -/
theorem mem_keysOf_filter_keyPred {β : Type} {l : List (Nat × β)} {q : Nat → Bool} {a : Nat} :
    a ∈ keysOf (l.filter fun p => q p.1) ↔ a ∈ keysOf l ∧ q a = true := by
  simp only [mem_keysOf, List.mem_filter]
  constructor
  · rintro ⟨v, hm, hq⟩
    exact ⟨⟨v, hm⟩, hq⟩
  · rintro ⟨⟨v, hm⟩, hq⟩
    exact ⟨v, hm, hq⟩

/-- With no duplicate keys, surviving the expiry filter is the same as not
being among the expired entries. -/
theorem mem_keysOf_expire_filter {l : List (Nat × Nat)} (h : (keysOf l).Nodup)
    {now a : Nat} :
    a ∈ keysOf (l.filter fun p => decide (now < p.2)) ↔
      a ∈ keysOf l ∧ a ∉ keysOf (l.filter fun p => decide (p.2 ≤ now)) := by
  simp only [mem_keysOf, List.mem_filter, decide_eq_true_eq]
  constructor
  · rintro ⟨v, hm, hlt⟩
    refine ⟨⟨v, hm⟩, ?_⟩
    rintro ⟨w, hw, hle⟩
    have := nodup_keysOf_entry_unique h hm hw
    omega
  · rintro ⟨⟨v, hm⟩, hdead⟩
    refine ⟨v, hm, ?_⟩
    by_contra hnot
    exact hdead ⟨v, hm, by omega⟩

/-- The invariant of C8: the deadline queue has no duplicate addresses and
its address set is the address set of the server state map. -/
def RegistryInv (g : GenericClient) : Prop :=
  (keysOf g.deadlines).Nodup ∧
  ∀ a, a ∈ keysOf g.deadlines ↔ a ∈ keysOf g.servers

theorem registryInv_init : RegistryInv GenericClient.init := by
  constructor
  · exact List.nodup_nil
  · intro a; simp [GenericClient.init, keysOf]

/-- Refreshing the deadline of an address preserves the invariant when the
state map is untouched. -/
theorem registryInv_refresh_same {g : GenericClient} (hInv : RegistryInv g) (addr t : Nat) :
    RegistryInv (refreshDeadline addr t g) := by
  by_cases h : addr ∈ keysOf g.servers
  · simp only [refreshDeadline, if_pos h]
    refine ⟨nodup_keysOf_insertReplace hInv.1, ?_⟩
    intro a
    rw [mem_keysOf_insertReplace]
    constructor
    · rintro (rfl | ha)
      · exact h
      · exact (hInv.2 a).1 ha
    · intro ha; exact Or.inr ((hInv.2 a).2 ha)
  · simp only [refreshDeadline, if_neg h]
    exact hInv

/-- Refreshing the deadline of a just-inserted address restores the
invariant. -/
theorem registryInv_refresh_insert {g : GenericClient} (hInv : RegistryInv g)
    (addr t : Nat) (v : PeerIOState) :
    RegistryInv (refreshDeadline addr t { g with servers := insertReplace g.servers addr v }) := by
  have hmem : addr ∈ keysOf (insertReplace g.servers addr v) :=
    mem_keysOf_insertReplace.2 (Or.inl rfl)
  simp only [refreshDeadline, hmem, if_pos]
  refine ⟨nodup_keysOf_insertReplace hInv.1, ?_⟩
  intro a
  rw [mem_keysOf_insertReplace, mem_keysOf_insertReplace]
  constructor
  · rintro (rfl | ha)
    · exact Or.inl rfl
    · exact Or.inr ((hInv.2 a).1 ha)
  · rintro (rfl | ha)
    · exact Or.inl rfl
    · exact Or.inr ((hInv.2 a).2 ha)

/-- Rust `on_decoded_message` preserves the invariant. -/
theorem registryInv_onDecodedMessage {g g2 : GenericClient}
    {out : List (Nat × ClientMsg)} {accept : Bool} {addr t : Nat} {msg : ServerMsg}
    (hInv : RegistryInv g)
    (h : onDecodedMessage g accept addr t msg = some (g2, out)) : RegistryInv g2 := by
  cases msg with
  | connect =>
    simp only [onDecodedMessage, Option.some.injEq, Prod.mk.injEq] at h
    obtain ⟨hg, -⟩ := h
    subst hg
    by_cases h1 : addr ∈ keysOf g.servers
    · simp only [if_pos h1]
      exact registryInv_refresh_same hInv addr t
    · by_cases h2 : accept
      · simp only [if_neg h1, if_pos h2]
        exact registryInv_refresh_insert hInv addr t _
      · simp only [if_neg h1, if_neg h2]
        exact registryInv_refresh_same hInv addr t
  | connected m =>
    simp only [onDecodedMessage, Option.some.injEq, Prod.mk.injEq] at h
    obtain ⟨hg, -⟩ := h
    subst hg
    cases hv : getVal g.servers addr with
    | none =>
      simp only [hv]
      exact registryInv_refresh_same hInv addr t
    | some st =>
      simp only [hv]
      exact registryInv_refresh_insert hInv addr t _
  | disconnect =>
    by_cases h1 : addr ∈ keysOf g.servers
    · by_cases h2 : addr ∈ keysOf g.deadlines
      · simp only [onDecodedMessage, if_pos h1, if_pos h2, Option.some.injEq,
          Prod.mk.injEq] at h
        obtain ⟨hg, -⟩ := h
        subst hg
        have hout : addr ∉ keysOf (removeKey g.servers addr) := fun hmem =>
          (mem_keysOf_removeKey.1 hmem).2 rfl
        simp only [refreshDeadline, if_neg hout]
        refine ⟨nodup_keysOf_filter hInv.1, ?_⟩
        intro a
        rw [show (⟨removeKey g.deadlines addr, removeKey g.servers addr⟩ :
              GenericClient).deadlines = removeKey g.deadlines addr from rfl,
           show (⟨removeKey g.deadlines addr, removeKey g.servers addr⟩ :
              GenericClient).servers = removeKey g.servers addr from rfl,
           mem_keysOf_removeKey, mem_keysOf_removeKey]
        exact and_congr_left fun _ => hInv.2 a
      · simp only [onDecodedMessage, if_pos h1, if_neg h2] at h
        cases h
    · simp only [onDecodedMessage, if_neg h1, Option.some.injEq, Prod.mk.injEq] at h
      obtain ⟨hg, -⟩ := h
      subst hg
      exact registryInv_refresh_same hInv addr t

/-- The expiry phase of `on_timeout` preserves the invariant. -/
theorem registryInv_onTimeoutExpire {g ge : GenericClient} {now : Nat}
    (hInv : RegistryInv g) (h : onTimeoutExpire now g = some ge) : RegistryInv ge := by
  simp only [onTimeoutExpire] at h
  split_ifs at h
  simp only [Option.some.injEq] at h
  subst h
  refine ⟨nodup_keysOf_filter hInv.1, ?_⟩
  intro a
  rw [show ∀ x y, (GenericClient.mk x y).deadlines = x from fun _ _ => rfl,
      show ∀ x y, (GenericClient.mk x y).servers = y from fun _ _ => rfl]
  rw [mem_keysOf_expire_filter hInv.1,
    mem_keysOf_filter_keyPred
      (q := fun x => decide (x ∉ keysOf (g.deadlines.filter fun p => decide (p.2 ≤ now))))]
  rw [decide_eq_true_eq]
  exact and_congr_left fun _ => hInv.2 a

/-- Keys survive a value-only rewrite of the map. -/
theorem keysOf_map_values {β γ : Type} (l : List (Nat × β)) (f : Nat → β → γ) :
    keysOf (l.map fun p => (p.1, f p.1 p.2)) = keysOf l := by
  simp only [keysOf, List.map_map]
  rfl

/-- Rust `on_timeout` preserves the invariant: expiry removes the same address set
from queue and map, and the polling pass only rewrites state values. -/
theorem registryInv_onTimeout {g g2 : GenericClient} {out : List (Nat × ClientMsg)}
    {now : Nat} {pollStart pollStop : List Nat}
    (hInv : RegistryInv g) (h : onTimeout now pollStart pollStop g = some (g2, out)) :
    RegistryInv g2 := by
  simp only [onTimeout] at h
  cases he : onTimeoutExpire now g with
  | none => rw [he] at h; cases h
  | some ge =>
    rw [he] at h
    simp only [Option.some.injEq, Prod.mk.injEq] at h
    obtain ⟨hg, -⟩ := h
    subst hg
    have hInv2 := registryInv_onTimeoutExpire hInv he
    have hkeys : keysOf (((ge.servers.map fun p =>
          (p.1, pollPeer pollStart pollStop p.1 p.2)).map fun p => (p.1, p.2.1)))
        = keysOf ge.servers := by
      rw [List.map_map]
      exact keysOf_map_values ge.servers fun a st => (pollPeer pollStart pollStop a st).1
    refine ⟨hInv2.1, ?_⟩
    intro a
    rw [show ∀ (x : GenericClient) y, ({ x with servers := y } :
          GenericClient).servers = y from fun _ _ => rfl]
    rw [hkeys]
    exact hInv2.2 a

/-- Every event step preserves the invariant. -/
theorem registryInv_stepEvent {g g2 : GenericClient} {out : List (Nat × ClientMsg)}
    {e : ClientEvent} (hInv : RegistryInv g) (h : stepEvent g e = some (g2, out)) :
    RegistryInv g2 := by
  cases e with
  | recv addr t accept msg => exact registryInv_onDecodedMessage hInv h
  | undecodable addr =>
    simp only [stepEvent, Option.some.injEq, Prod.mk.injEq] at h
    obtain ⟨hg, -⟩ := h
    subst hg
    exact hInv
  | timeout now ps pss => exact registryInv_onTimeout hInv h

/-- Running any event sequence preserves the invariant. -/
theorem registryInv_runFrom {es : List ClientEvent} :
    ∀ {g g2 : GenericClient}, RegistryInv g → runFrom g es = some g2 → RegistryInv g2 := by
  induction es with
  | nil =>
    intro g g2 hInv h
    simp only [runFrom, Option.some.injEq] at h
    subst h
    exact hInv
  | cons e rest ih =>
    intro g g2 hInv h
    simp only [runFrom] at h
    cases hs : stepEvent g e with
    | none => rw [hs] at h; cases h
    | some r =>
      rw [hs] at h
      exact ih (registryInv_stepEvent hInv hs) h

/-- C8. Starting from the empty client, after any successfully handled
event sequence — accepted or refused inbound `Connect`s, valid messages from
known peers, inbound `Disconnect`s and timeout-driven expiry — the set of
addresses in the deadline priority queue equals the set of addresses in the
per-server state map. -/
theorem registry_deadline_sets_agree (es : List ClientEvent) (g : GenericClient)
    (h : runEvents es = some g) :
    (keysOf g.deadlines).toFinset = (keysOf g.servers).toFinset := by
  have hInv := registryInv_runFrom registryInv_init h
  apply Finset.ext
  intro a
  rw [List.mem_toFinset, List.mem_toFinset]
  exact hInv.2 a

/-- Witness for C8: after a single accepted `Connect` from address `3` at
instant `5`, both the queue and the map hold exactly address `3`. -/
theorem registry_deadline_sets_agree_witness :
    (keysOf (GenericClient.mk [(3, 605)] [(3, .inactive)]).deadlines).toFinset
      = (keysOf (GenericClient.mk [(3, 605)] [(3, .inactive)]).servers).toFinset :=
  registry_deadline_sets_agree [.recv 3 5 true .connect]
    (GenericClient.mk [(3, 605)] [(3, .inactive)]) (by decide)

end Syfala
